import Mathlib

/-!
A verification development for the diffsync repository's Redis-backed store
(src/diffsync/store/redis.py) and the Nautobot-facing adapter specializations
(src/examples/05-nautobot-peeringdb/adapter_nautobot.py).

Strings are modelled as lists of characters (Python strings are character
sequences); the backing Redis keyspace is an association list from keys to
stored blobs.  pickle serialization is modelled by a tagged blob type:
`Blob.pickled m` is the encoding of record `m` (loads inverts dumps), and
`Blob.corrupt t` stands for a stored byte string on which the deserializer
fails with its own UnpicklingError (e.g. truncated pickle data); calling the
deserializer on a missing value (Python None) raises TypeError, since None is
not a bytes-like object.
-/

/-- Python strings, modelled as character lists. -/
abbrev Str := List Char

/-- Character list of a string literal. -/
def chars (s : String) : Str := s.data

/-- The possible values of a record's diffsync back-reference as the store
code writes them: None, False (written by add/update before serializing), or
an adapter object (identified by a tag).  Only an adapter object is truthy. -/
inductive BackRef where
  | pyNone
  | pyFalse
  | adapter (id : Nat)
deriving DecidableEq

/-- Python truthiness of a back-reference value. -/
def BackRef.truthy : BackRef → Bool
  | .adapter _ => true
  | _ => false

/-- A DiffSyncModel record as the store sees it: a type name, the ordered
values of its declared identifier fields, its declared attribute fields with
values, the declared child-relationship mapping (child type name to the field
holding that child's identifier list), the values of those child id fields,
and the diffsync back-reference. -/
structure DSModel where
  modelname : Str
  idVals : List Str
  attrVals : List (Str × Str)
  childrenMapping : List (Str × Str)
  childIds : List (Str × List Str)
  diffsync : BackRef
deriving DecidableEq

/-- Modelled from the spec: get_unique_id belongs to the external framework's
base record class, absent from src/.  Per the spec glossary, the unique id is
"a string deterministically composed from a record's identifier field values",
concatenated with a framework-defined separator. -/
def DSModel.get_unique_id (m : DSModel) : Str :=
  List.intercalate (chars "__") m.idVals

/-- getattr(obj, child_fieldname) for a declared child id field. -/
def DSModel.childField (m : DSModel) (f : Str) : List Str :=
  match m.childIds.find? (fun p => decide (p.1 = f)) with
  | some p => p.2
  | none => []

/-- The (child type, child id) pairs visited by remove's nested loops, in
source order: for each entry of get_children_mapping, each id in the record's
corresponding child field. -/
def DSModel.childPairs (m : DSModel) : List (Str × Str) :=
  (m.childrenMapping.map (fun p => (m.childField p.2).map (fun cid => (p.1, cid)))).flatten

/-- A value stored in Redis: a pickled record, or bytes the deserializer
cannot decode. -/
inductive Blob where
  | pickled (m : DSModel)
  | corrupt (tag : Nat)
deriving DecidableEq

/-- Errors raised by pickle.loads in the situations the store can encounter:
TypeError when the argument is not bytes-like (Redis GET returned None), and
UnpicklingError when the bytes exist but cannot be decoded. -/
inductive PyErr where
  | typeError
  | unpicklingError
deriving DecidableEq

/-- pickle.loads applied to the result of a Redis GET. -/
def loads : Option Blob → Except PyErr DSModel
  | none => .error .typeError
  | some (.pickled m) => .ok m
  | some (.corrupt _) => .error .unpicklingError

/-- pickle.dumps. -/
def dumps (m : DSModel) : Blob := .pickled m

/-- The backing Redis keyspace. -/
abbrev RedisState := List (Str × Blob)

/-- Redis GET: the value at a key, if present. -/
def rget : RedisState → Str → Option Blob
  | [], _ => none
  | (k, v) :: rest, key => if key = k then some v else rget rest key

/-- Redis DEL: drop every entry at a key. -/
def rdelete : RedisState → Str → RedisState
  | [], _ => []
  | (k, v) :: rest, key => if k = key then rdelete rest key else (k, v) :: rdelete rest key

/-- Redis SET: unconditional overwrite. -/
def rset (st : RedisState) (k : Str) (v : Blob) : RedisState :=
  (k, v) :: rdelete st k

/-- Redis EXISTS. -/
def rexists (st : RedisState) (k : Str) : Bool := (rget st k).isSome

/-- Boolean literal-prefix test on character lists. -/
def pfxOf : Str → Str → Bool
  | [], _ => true
  | _ :: _, [] => false
  | a :: as, b :: bs => decide (a = b) && pfxOf as bs

/-- Redis SCAN with a glob pattern of the shape "p*": the keys the pattern
matches, in keyspace enumeration order.  The source only ever builds patterns
with a single trailing star and no other glob metacharacter, for which glob
matching is literal-prefix matching. -/
def scanKeys (st : RedisState) (p : Str) : List Str :=
  (st.map Prod.fst).filter (fun k => pfxOf p k)

/-- A RedisStore instance: its display name, its store_id (supplied, or a
random 8-character token when omitted), and the diffsync back-reference held
by the underlying BaseStore.  The Redis connection itself is the RedisState
argument threaded through the operations. -/
structure RedisStore where
  name : Str
  store_id : Str
  diffsync : BackRef

/-- self._store_label, built in __init__ as "diffsync:" + store_id. -/
def RedisStore.label (s : RedisStore) : Str := chars "diffsync:" ++ s.store_id

/-- _get_key_for_object. -/
def RedisStore.keyFor (s : RedisStore) (modelname uid : Str) : Str :=
  s.label ++ chars ":" ++ modelname ++ chars ":" ++ uid

/-- A DiffSyncModel class as get uses one: its type name and its
create_unique_id classmethod (external framework behavior, kept abstract). -/
structure ModelClass where
  modelname : Str
  createUniqueId : List (Str × Str) → Str

/-- A Python attribute value found on the store by getattr: a model class, or
any other object (a bound method, a client object, ...) together with its
truthiness.  Calling create_unique_id on a non-class raises AttributeError. -/
inductive PyAttrVal where
  | mcls (c : ModelClass)
  | obj (truthy : Bool)

/-- The obj argument of get/get_all: a bare modelname string, or a model
class (a model instance behaves as its class here, both answer get_type). -/
inductive TypeRef where
  | str (s : Str)
  | cls (c : ModelClass)

/-- get_type of a type reference. -/
def TypeRef.modelname : TypeRef → Str
  | .str s => s
  | .cls c => c.modelname

/-- The identifier argument of get: a unique-id string or a mapping of
identifier fields. -/
inductive IdArg where
  | str (u : Str)
  | mapping (m : List (Str × Str))

/-- hasattr/getattr on the store instance, restricted to the attributes the
source declares: the methods of RedisStore, the fields set in __init__, and
name/diffsync from BaseStore.  Bound methods and client objects are truthy
non-classes; the diffsync attribute has the truthiness of its value.  (The
full Python attribute set also contains inherited dunder names, which no
model type name collides with; they are not listed.) -/
def RedisStore.pyAttr (store : RedisStore) (s : Str) : Option PyAttrVal :=
  if s = chars "diffsync" then some (.obj store.diffsync.truthy)
  else if s ∈ [chars "name", chars "get", chars "get_all", chars "get_by_uids",
      chars "add", chars "update", chars "remove", chars "count",
      chars "_get_key_for_object", chars "_store", chars "_store_id",
      chars "_store_label"] then some (.obj true)
  else none

/-- The errors the store operations can surface: ObjectNotFound, ValueError
(invalid get arguments), AttributeError (create_unique_id on a non-class),
the deserializer's UnpicklingError propagating uncaught, and exhaustion of
the recursion fuel (a model artifact of the recursive remove; never reached
with enough fuel). -/
inductive StoreErr where
  | objectNotFound
  | valueError
  | attributeError
  | unpicklingError
  | outOfFuel
deriving DecidableEq

/-- The object_class get resolves: getattr(self, obj) when obj is a string
(None when hasattr fails), or obj itself when it is a class. -/
def RedisStore.objClass (store : RedisStore) (obj : TypeRef) : Option PyAttrVal :=
  match obj with
  | .str s => store.pyAttr s
  | .cls c => some (.mcls c)

/-- The uid-resolution block of get (source lines 54-62): the identifier
itself when it is a string; for a mapping,
object_class.create_unique_id(**identifier), which raises ValueError when
object_class is missing or falsy and AttributeError when it is a truthy
non-class. -/
def RedisStore.resolveUid (store : RedisStore) (obj : TypeRef)
    (identifier : IdArg) : Except StoreErr Str :=
  match identifier with
  | .str u => .ok u
  | .mapping m =>
    match store.objClass obj with
    | some (.mcls c) => .ok (c.createUniqueId m)
    | some (.obj true) => .error .attributeError
    | some (.obj false) => .error .valueError
    | none => .error .valueError

/-- RedisStore.get.  The stored value at the derived key is deserialized and
its diffsync back-reference is set to the reading store's; the TypeError from
a missing value is caught and re-raised as ObjectNotFound, any other
deserializer error propagates. -/
def RedisStore.get (store : RedisStore) (st : RedisState) (obj : TypeRef)
    (identifier : IdArg) : Except StoreErr DSModel :=
  match store.resolveUid obj identifier with
  | .error e => .error e
  | .ok uid =>
    match loads (rget st (store.keyFor obj.modelname uid)) with
    | .ok m => .ok { m with diffsync := store.diffsync }
    | .error .typeError => .error .objectNotFound
    | .error .unpicklingError => .error .unpicklingError

/-- The loop body of get_all over the scanned keys. -/
def getAllLoop (store : RedisStore) (st : RedisState) :
    List Str → Except StoreErr (List DSModel)
  | [] => .ok []
  | k :: rest =>
    match loads (rget st k) with
    | .ok m =>
      match getAllLoop store st rest with
      | .ok tail => .ok ({ m with diffsync := store.diffsync } :: tail)
      | .error e => .error e
    | .error .typeError => .error .objectNotFound
    | .error .unpicklingError => .error .unpicklingError

/-- RedisStore.get_all: deserialize every key matching "label:modelname:*". -/
def RedisStore.get_all (store : RedisStore) (st : RedisState) (obj : TypeRef) :
    Except StoreErr (List DSModel) :=
  getAllLoop store st (scanKeys st (store.label ++ chars ":" ++ obj.modelname ++ chars ":"))

/-- The loop body of get_by_uids over the requested uids. -/
def getByUidsLoop (store : RedisStore) (st : RedisState) (modelname : Str) :
    List Str → Except StoreErr (List DSModel)
  | [] => .ok []
  | u :: rest =>
    match loads (rget st (store.keyFor modelname u)) with
    | .ok m =>
      match getByUidsLoop store st modelname rest with
      | .ok tail => .ok ({ m with diffsync := store.diffsync } :: tail)
      | .error e => .error e
    | .error .typeError => .error .objectNotFound
    | .error .unpicklingError => .error .unpicklingError

/-- RedisStore.get_by_uids. -/
def RedisStore.get_by_uids (store : RedisStore) (st : RedisState)
    (uids : List Str) (obj : TypeRef) : Except StoreErr (List DSModel) :=
  getByUidsLoop store st obj.modelname uids

/-- RedisStore.add: copy the record, set the copy's diffsync to False, SET
the pickled copy at the derived key.  The conflict check of the framework
contract is commented out in the source; nothing is raised.  The second
component is the caller's record after the call (only the copy is touched). -/
def RedisStore.add (store : RedisStore) (st : RedisState) (obj : DSModel) :
    RedisState × DSModel :=
  let modelname := obj.modelname
  let uid := obj.get_unique_id
  let object_key := store.keyFor modelname uid
  let obj_copy := obj
  let obj_copy := { obj_copy with diffsync := BackRef.pyFalse }
  (rset st object_key (dumps obj_copy), obj)

/-- RedisStore.update: same statements as add. -/
def RedisStore.update (store : RedisStore) (st : RedisState) (obj : DSModel) :
    RedisState × DSModel :=
  let modelname := obj.modelname
  let uid := obj.get_unique_id
  let object_key := store.keyFor modelname uid
  let obj_copy := obj
  let obj_copy := { obj_copy with diffsync := BackRef.pyFalse }
  (rset st object_key (dumps obj_copy), obj)

/-- The nested child loops of remove, flattened over the (child type, child
id) pairs in source order.  For each pair: self.get(child_type, child_id)
then the recursive remove (the callback f), with ObjectNotFound from either
call caught and ignored; every other error propagates, with the state as
mutated so far (Redis writes are not rolled back by a Python exception). -/
def removeLoop (store : RedisStore)
    (f : RedisState → DSModel → RedisState × Option StoreErr) :
    RedisState → List (Str × Str) → RedisState × Option StoreErr
  | st, [] => (st, none)
  | st, (ct, cid) :: rest =>
    match store.get st (.str ct) (.str cid) with
    | .error .objectNotFound => removeLoop store f st rest
    | .error e => (st, some e)
    | .ok child =>
      match f st child with
      | (st2, some .objectNotFound) => removeLoop store f st2 rest
      | (st2, some e) => (st2, some e)
      | (st2, none) => removeLoop store f st2 rest

/-- RedisStore.remove: raise ObjectNotFound when the derived key does not
exist, otherwise DEL it and, when remove_children is set, run the child
cleanup loops with the recursive call.  The result is the final keyspace
paired with the raised error, if any.  The fuel argument bounds the recursion
depth (the Python recursion terminates because each successful nested remove
deletes a key; any fuel of at least the keyspace size is enough). -/
def RedisStore.remove (store : RedisStore) :
    Nat → RedisState → DSModel → Bool → RedisState × Option StoreErr
  | 0, st, _, _ => (st, some .outOfFuel)
  | fuel + 1, st, obj, remove_children =>
    let object_key := store.keyFor obj.modelname obj.get_unique_id
    if rexists st object_key = false then (st, some .objectNotFound)
    else
      let st1 := rdelete st object_key
      if remove_children then
        removeLoop store (fun s c => RedisStore.remove store fuel s c true) st1 obj.childPairs
      else (st1, none)

/-- RedisStore.count: the number of keys matching "label:*", or
"label:modelname:*" with a type filter. -/
def RedisStore.count (store : RedisStore) (st : RedisState)
    (modelname : Option Str) : Nat :=
  match modelname with
  | none => (scanKeys st (store.label ++ chars ":")).length
  | some m => (scanKeys st (store.label ++ chars ":" ++ m ++ chars ":")).length

/-- A state-changing store operation, for reasoning about operation
sequences. -/
inductive RedisOp where
  | addOp (r : DSModel)
  | updateOp (r : DSModel)
  | removeOp (r : DSModel) (rc : Bool) (fuel : Nat)

/-- The keyspace after one operation (a raised error leaves the writes
performed so far in place). -/
def applyOp (store : RedisStore) (st : RedisState) : RedisOp → RedisState
  | .addOp r => (store.add st r).1
  | .updateOp r => (store.update st r).1
  | .removeOp r rc fuel => (store.remove fuel st r rc).1

/-- The keyspace after a sequence of operations. -/
def applyOps (store : RedisStore) (st : RedisState) (ops : List RedisOp) : RedisState :=
  ops.foldl (applyOp store) st

/-- The entries of a keyspace whose key does not start with p (the part of
the keyspace outside one store's namespace). -/
def restrict (p : Str) (st : RedisState) : RedisState :=
  st.filter (fun kv => !(pfxOf p kv.1))

/-- No stored value is undecodable (decidable form). -/
def cleanB (st : RedisState) : Bool :=
  st.all (fun kv => match kv.2 with | .corrupt _ => false | _ => true)

/-! ## Nautobot-facing adapter (src/examples/05-nautobot-peeringdb/adapter_nautobot.py) -/

/-- A JSON value as the adapter's request bodies use them.  The one-field
object that site payloads send for the region is abbreviated as jname: jname
n stands for the JSON object whose single field "name" holds n. -/
inductive JVal where
  | jstr (s : Str)
  | jnull
  | jnum (n : Int)
  | jname (n : Str)
deriving DecidableEq

/-- JSON encoding of an optional string (Python None becomes null). -/
def jOfOptStr : Option Str → JVal
  | some s => .jstr s
  | none => .jnull

/-- JSON encoding of an optional number. -/
def jOfOptInt : Option Int → JVal
  | some n => .jnum n
  | none => .jnull

/-- Python truthiness of an optional string (None and the empty string are
falsy). -/
def optStrTruthy : Option Str → Bool
  | none => false
  | some s => decide (s ≠ [])

/-- Modelled from the spec: the Region record of the Nautobot example schema
(its models.py is not under src/; per the spec, identifier name; attributes
slug, description optional, parent_name optional; plus a remote primary key
pk set once created).  Numeric coordinates do not occur on regions. -/
structure RegionRec where
  name : Str
  slug : Str
  description : Option Str
  parent_name : Option Str
  pk : Option Str
deriving DecidableEq

/-- Modelled from the spec: the Site record of the Nautobot example schema
(identifier name; attributes slug, description, status_slug, region_name
optional, latitude, longitude; plus pk).  The coordinates are opaque numbers
passed through unchanged; they are modelled as integers. -/
structure SiteRec where
  name : Str
  slug : Str
  description : Option Str
  status_slug : Str
  region_name : Option Str
  latitude : Option Int
  longitude : Option Int
  pk : Option Str
deriving DecidableEq

/-- A record in the adapter's local in-memory record graph. -/
inductive NbRec where
  | region (r : RegionRec)
  | site (s : SiteRec)
deriving DecidableEq

/-- HTTP methods the adapter issues. -/
inductive HMethod where
  | post
  | patch
  | delete
deriving DecidableEq

/-- An HTTP request as the adapter's helpers build one: method, path, and a
JSON object body. -/
structure HttpReq where
  method : HMethod
  path : Str
  body : List (Str × JVal)

/-- Errors surfaced by the adapter's record operations: an HTTPError from
raise_for_status carrying the response status, or ObjectNotFound from the
owning adapter's lookup of a parent region. -/
inductive NbErr where
  | httpError (status : Nat)
  | notFoundLocal
deriving DecidableEq

/-- The NautobotRemote adapter: its url and token, the remote system's
response status for each request (the model of the network), and the local
record graph. -/
structure NbAdapter where
  url : Str
  token : Str
  http : HttpReq → Nat
  graph : List NbRec

/-- Modelled from the spec: the owning adapter's get by model class and
identifier name, as self.diffsync.get(self.diffsync.region, parent_name)
uses it (the base adapter class is external framework code): the region
record with the given name, if registered. -/
def nbGetRegion (ad : NbAdapter) (name : Str) : Option RegionRec :=
  match ad.graph.find? (fun r => match r with
      | .region rr => decide (rr.name = name)
      | .site _ => false) with
  | some (.region rr) => some rr
  | _ => none

/-- str(pk): Python prints None as the string "None". -/
def pkStr : Option Str → Str
  | some s => s
  | none => chars "None"

/-- NautobotRemote.post: issue the request and raise_for_status, which
raises HTTPError exactly for the 4xx and 5xx status classes. -/
def nbPost (ad : NbAdapter) (path : Str) (d : List (Str × JVal)) : Except NbErr Nat :=
  let s := ad.http { method := .post, path := path, body := d }
  if 400 ≤ s ∧ s < 600 then .error (.httpError s) else .ok s

/-- NautobotRemote.patch, same raise_for_status behavior. -/
def nbPatch (ad : NbAdapter) (path : Str) (d : List (Str × JVal)) : Except NbErr Nat :=
  let s := ad.http { method := .patch, path := path, body := d }
  if 400 ≤ s ∧ s < 600 then .error (.httpError s) else .ok s

/-- The ids argument of RegionNautobotModel.create. -/
structure RegionIds where
  name : Str
deriving DecidableEq

/-- The attrs argument of RegionNautobotModel.create: create receives every
declared attribute (the source indexes them unconditionally). -/
structure RegionCreateAttrs where
  slug : Str
  description : Option Str
  parent_name : Option Str
deriving DecidableEq

/-- The body RegionNautobotModel.create posts (source lines 25-32): name and
slug always; description when truthy; parent, resolved to the remote primary
key of the parent region looked up by name through the owning adapter, when
parent_name is truthy (the lookup raises when the parent is not loaded). -/
def buildRegionCreateData (ad : NbAdapter) (ids : RegionIds)
    (attrs : RegionCreateAttrs) : Except NbErr (List (Str × JVal)) :=
  let d := [(chars "name", JVal.jstr ids.name), (chars "slug", JVal.jstr attrs.slug)]
  let d := if optStrTruthy attrs.description
    then d ++ [(chars "description", JVal.jstr (attrs.description.getD []))]
    else d
  if optStrTruthy attrs.parent_name then
    match nbGetRegion ad (attrs.parent_name.getD []) with
    | some rr => .ok (d ++ [(chars "parent", JVal.jstr (pkStr rr.pk))])
    | none => .error .notFoundLocal
  else .ok d

/-- Modelled from the spec: the base DiffSyncModel.create this specialization
delegates to (external framework): it registers the new record in the owning
adapter's record graph. -/
def baseRegionCreate (ad : NbAdapter) (ids : RegionIds)
    (attrs : RegionCreateAttrs) : NbAdapter :=
  { ad with graph := ad.graph ++ [.region {
      name := ids.name, slug := attrs.slug, description := attrs.description,
      parent_name := attrs.parent_name, pk := none }] }

/-- RegionNautobotModel.create: build the body, POST it (raise_for_status),
then delegate to the base create. -/
def regionCreate (ad : NbAdapter) (ids : RegionIds) (attrs : RegionCreateAttrs) :
    Except NbErr NbAdapter :=
  match buildRegionCreateData ad ids attrs with
  | .error e => .error e
  | .ok d =>
    match nbPost ad (chars "/api/dcim/regions/") d with
    | .error e => .error e
    | .ok _ => .ok (baseRegionCreate ad ids attrs)

/-- The attrs argument of RegionNautobotModel.update: the change set, with
one entry per attribute present in the update payload (the outer Option is
dict membership, the inner value may itself be None). -/
structure RegionUpdateAttrs where
  slug : Option Str
  description : Option (Option Str)
  parent_name : Option (Option Str)
deriving DecidableEq

/-- The partial patch body RegionNautobotModel.update sends (source lines
42-51): one entry per attribute present in the change set; a truthy
parent_name is resolved to the parent's remote primary key through the
owning adapter, a falsy one is sent as an explicit null parent. -/
def buildRegionPatchBody (ad : NbAdapter) (a : RegionUpdateAttrs) :
    Except NbErr (List (Str × JVal)) :=
  let d : List (Str × JVal) := match a.slug with
    | some v => [(chars "slug", JVal.jstr v)]
    | none => []
  let d := match a.description with
    | some v => d ++ [(chars "description", jOfOptStr v)]
    | none => d
  match a.parent_name with
  | some pv =>
    if optStrTruthy pv then
      match nbGetRegion ad (pv.getD []) with
      | some rr => .ok (d ++ [(chars "parent", JVal.jstr (pkStr rr.pk))])
      | none => .error .notFoundLocal
    else .ok (d ++ [(chars "parent", JVal.jnull)])
  | none => .ok d

/-- Modelled from the spec: the base DiffSyncModel.update this specialization
delegates to (external framework): it applies the change set to the matching
record in the owning adapter's record graph. -/
def applyRegionAttrs (r : RegionRec) (a : RegionUpdateAttrs) : RegionRec :=
  { r with
    slug := a.slug.getD r.slug,
    description := a.description.getD r.description,
    parent_name := a.parent_name.getD r.parent_name }

/-- Modelled from the spec, see applyRegionAttrs. -/
def baseRegionUpdate (ad : NbAdapter) (self : RegionRec)
    (a : RegionUpdateAttrs) : NbAdapter :=
  { ad with graph := ad.graph.map (fun r => match r with
      | .region rr => if rr.name = self.name then .region (applyRegionAttrs rr a) else .region rr
      | .site s => .site s) }

/-- The per-record regions endpoint "/api/dcim/regions/PK/". -/
def regionPath (pk : Str) : Str :=
  chars "/api/dcim/regions/" ++ pk ++ chars "/"

/-- RegionNautobotModel.update: build the partial body, PATCH the per-record
endpoint addressed by the stored remote primary key, then delegate to the
base update. -/
def regionUpdate (ad : NbAdapter) (self : RegionRec) (a : RegionUpdateAttrs) :
    Except NbErr NbAdapter :=
  match buildRegionPatchBody ad a with
  | .error e => .error e
  | .ok d =>
    match nbPatch ad (regionPath (pkStr self.pk)) d with
    | .error e => .error e
    | .ok _ => .ok (baseRegionUpdate ad self a)

/-- The attrs argument of SiteNautobotModel.update, one presence-tagged entry
per declared attribute. -/
structure SiteUpdateAttrs where
  slug : Option Str
  description : Option (Option Str)
  status_slug : Option Str
  region_name : Option (Option Str)
  latitude : Option (Option Int)
  longitude : Option (Option Int)
deriving DecidableEq

/-- The partial patch body SiteNautobotModel.update sends (source lines
93-108): one entry per attribute present in the change set; status_slug is
sent as status, region_name as a one-field region object when truthy and as
an explicit null region otherwise. -/
def buildSitePatchBody (a : SiteUpdateAttrs) : List (Str × JVal) :=
  let d : List (Str × JVal) := match a.slug with
    | some v => [(chars "slug", JVal.jstr v)]
    | none => []
  let d := match a.description with
    | some v => d ++ [(chars "description", jOfOptStr v)]
    | none => d
  let d := match a.status_slug with
    | some v => d ++ [(chars "status", JVal.jstr v)]
    | none => d
  let d := match a.region_name with
    | some rv =>
      if optStrTruthy rv then d ++ [(chars "region", JVal.jname (rv.getD []))]
      else d ++ [(chars "region", JVal.jnull)]
    | none => d
  let d := match a.latitude with
    | some v => d ++ [(chars "latitude", jOfOptInt v)]
    | none => d
  match a.longitude with
  | some v => d ++ [(chars "longitude", jOfOptInt v)]
  | none => d

/-- Modelled from the spec: the base DiffSyncModel.update for sites, applying
the change set to the matching graph record (external framework). -/
def applySiteAttrs (s : SiteRec) (a : SiteUpdateAttrs) : SiteRec :=
  { s with
    slug := a.slug.getD s.slug,
    description := a.description.getD s.description,
    status_slug := a.status_slug.getD s.status_slug,
    region_name := a.region_name.getD s.region_name,
    latitude := a.latitude.getD s.latitude,
    longitude := a.longitude.getD s.longitude }

/-- Modelled from the spec, see applySiteAttrs. -/
def baseSiteUpdate (ad : NbAdapter) (self : SiteRec) (a : SiteUpdateAttrs) :
    NbAdapter :=
  { ad with graph := ad.graph.map (fun r => match r with
      | .region rr => .region rr
      | .site s => if s.name = self.name then .site (applySiteAttrs s a) else .site s) }

/-- The per-record sites endpoint "/api/dcim/sites/PK/". -/
def sitePath (pk : Str) : Str :=
  chars "/api/dcim/sites/" ++ pk ++ chars "/"

/-- SiteNautobotModel.update: build the partial body, PATCH the per-record
endpoint, then delegate to the base update. -/
def siteUpdate (ad : NbAdapter) (self : SiteRec) (a : SiteUpdateAttrs) :
    Except NbErr NbAdapter :=
  match nbPatch ad (sitePath (pkStr self.pk)) (buildSitePatchBody a) with
  | .error e => .error e
  | .ok _ => .ok (baseSiteUpdate ad self a)

/-- The local record graph of an adapter operation's result, when it did not
raise (adapters contain a function and are compared through their graphs). -/
def graphOf : Except NbErr NbAdapter → Option (List NbRec)
  | .error _ => none
  | .ok ad => some ad.graph

/-! ## Concrete instances used by witnesses and counterexamples -/

/-- A store with a colon-free store_id "a". -/
def storeA : RedisStore := { name := chars "main", store_id := chars "a", diffsync := .pyNone }

/-- A store whose store_id "a:b" contains a colon. -/
def storeB : RedisStore := { name := chars "other", store_id := chars "a:b", diffsync := .pyNone }

/-- A second colon-free store, distinct from storeA. -/
def storeC : RedisStore := { name := chars "main", store_id := chars "b", diffsync := .adapter 1 }

/-- A region record with no children. -/
def modelNA : DSModel :=
  { modelname := chars "region", idVals := [chars "na"],
    attrVals := [(chars "name", chars "NA")], childrenMapping := [],
    childIds := [], diffsync := .pyNone }

/-- A minimal record of type "m" with unique id "u". -/
def modelM : DSModel :=
  { modelname := chars "m", idVals := [chars "u"], attrVals := [],
    childrenMapping := [], childIds := [], diffsync := .pyNone }

/-- A region with two declared children: country "ca" (stored) and country
"us" (absent from the keyspace). -/
def parentR : DSModel :=
  { modelname := chars "region", idVals := [chars "na"], attrVals := [],
    childrenMapping := [(chars "country", chars "countries")],
    childIds := [(chars "countries", [chars "ca", chars "us"])],
    diffsync := .adapter 3 }

/-- The stored country "ca". -/
def childCA : DSModel :=
  { modelname := chars "country", idVals := [chars "ca"], attrVals := [],
    childrenMapping := [], childIds := [], diffsync := .pyNone }

/-- A keyspace holding parentR and its child "ca" under storeA's namespace;
the declared child "us" has no entry. -/
def stParent : RedisState :=
  [(storeA.keyFor (chars "region") (chars "na"), dumps parentR),
   (storeA.keyFor (chars "country") (chars "ca"), dumps childCA)]

/-- An adapter whose remote answers 500 to every request. -/
def adFail : NbAdapter :=
  { url := chars "https://demo.nautobot.com", token := chars "t",
    http := fun _ => 500, graph := [] }

/-- A site record as loaded from the remote. -/
def site0 : SiteRec :=
  { name := chars "s1", slug := chars "old", description := none,
    status_slug := chars "active", region_name := none, latitude := none,
    longitude := none, pk := some (chars "7") }

/-- An adapter whose remote answers 304 Not Modified (a non-2xx status below
400) to every request, holding site0. -/
def ad304 : NbAdapter :=
  { url := chars "https://demo.nautobot.com", token := chars "t",
    http := fun _ => 304, graph := [.site site0] }

/-- A site change set containing only slug. -/
def sAttrsSlug : SiteUpdateAttrs :=
  { slug := some (chars "new"), description := none, status_slug := none,
    region_name := none, latitude := none, longitude := none }

/-- Region create ids. -/
def rIds0 : RegionIds := { name := chars "r1" }

/-- Region create attrs with no description and no parent. -/
def rAttrs0 : RegionCreateAttrs :=
  { slug := chars "r1", description := none, parent_name := none }

/-! ## Basic keyspace lemmas -/

theorem chars_colon : chars ":" = [':'] := rfl

theorem rget_rset_self (st : RedisState) (k : Str) (v : Blob) :
    rget (rset st k v) k = some v := by
  simp [rset, rget]

theorem rget_cons (a : Str) (b : Blob) (rest : RedisState) (k : Str) :
    rget ((a, b) :: rest) k = if k = a then some b else rget rest k := rfl

theorem rdelete_cons (a : Str) (b : Blob) (rest : RedisState) (k : Str) :
    rdelete ((a, b) :: rest) k =
      if a = k then rdelete rest k else (a, b) :: rdelete rest k := rfl

theorem rget_rdelete (st : RedisState) (k k2 : Str) :
    rget (rdelete st k) k2 = if k2 = k then none else rget st k2 := by
  induction st with
  | nil =>
    show (none : Option Blob) = if k2 = k then none else none
    rw [ite_self]
  | cons ab rest ih =>
    obtain ⟨a, b⟩ := ab
    rw [rdelete_cons]
    by_cases hak : a = k
    · rw [if_pos hak, ih, rget_cons]
      by_cases h2 : k2 = k
      · rw [if_pos h2, if_pos h2]
      · rw [if_neg h2, if_neg h2, if_neg (fun hh : k2 = a => h2 (hak ▸ hh))]
    · rw [if_neg hak, rget_cons, rget_cons]
      by_cases h2 : k2 = a
      · rw [if_pos h2, if_pos h2, if_neg (fun hh : k2 = k => hak (h2 ▸ hh ▸ rfl))]
      · rw [if_neg h2, if_neg h2, ih]

theorem mem_rdelete {st : RedisState} {k : Str} {kv : Str × Blob} :
    kv ∈ rdelete st k ↔ kv ∈ st ∧ kv.1 ≠ k := by
  induction st with
  | nil => simp [rdelete]
  | cons ab rest ih =>
    obtain ⟨a, b⟩ := ab
    rw [rdelete_cons]
    by_cases hak : a = k
    · rw [if_pos hak, ih]
      subst hak
      simp only [List.mem_cons]
      constructor
      · exact fun ⟨hm, hne⟩ => ⟨Or.inr hm, hne⟩
      · rintro ⟨hm | hm, hne⟩
        · exact absurd (congrArg Prod.fst hm) hne
        · exact ⟨hm, hne⟩
    · rw [if_neg hak]
      simp only [List.mem_cons, ih]
      constructor
      · rintro (h | ⟨hm, hne⟩)
        · subst h; exact ⟨Or.inl rfl, hak⟩
        · exact ⟨Or.inr hm, hne⟩
      · rintro ⟨h | hm, hne⟩
        · exact Or.inl h
        · exact Or.inr ⟨hm, hne⟩

theorem rdelete_length_le (st : RedisState) (k : Str) :
    (rdelete st k).length ≤ st.length := by
  induction st with
  | nil => exact Nat.le_refl _
  | cons ab rest ih =>
    obtain ⟨a, b⟩ := ab
    rw [rdelete_cons]
    by_cases hak : a = k
    · rw [if_pos hak]
      exact Nat.le_trans ih (Nat.le_succ _)
    · rw [if_neg hak, List.length_cons, List.length_cons]
      omega

theorem rdelete_length_lt (st : RedisState) (k : Str) (h : rget st k ≠ none) :
    (rdelete st k).length < st.length := by
  induction st with
  | nil => simp [rget] at h
  | cons ab rest ih =>
    obtain ⟨a, b⟩ := ab
    rw [rdelete_cons]
    by_cases hak : a = k
    · rw [if_pos hak, List.length_cons]
      exact Nat.lt_succ_of_le (rdelete_length_le rest k)
    · rw [if_neg hak, List.length_cons, List.length_cons]
      rw [rget_cons, if_neg (fun hh : k = a => hak (hh ▸ rfl))] at h
      exact Nat.succ_lt_succ (ih h)

theorem rget_mem {st : RedisState} {k : Str} {b : Blob} (h : rget st k = some b) :
    (k, b) ∈ st := by
  induction st with
  | nil => simp [rget] at h
  | cons ab rest ih =>
    obtain ⟨a, v⟩ := ab
    rw [rget_cons] at h
    by_cases hka : k = a
    · rw [if_pos hka] at h
      cases h
      subst hka
      exact List.mem_cons_self _ _
    · rw [if_neg hka] at h
      exact List.mem_cons_of_mem _ (ih h)

/-! ## Prefix lemmas -/

theorem pfxOf_append (p t : Str) : pfxOf p (p ++ t) = true := by
  induction p with
  | nil => rfl
  | cons a as ih => simp [pfxOf, ih]

theorem pfxOf_iff {p s : Str} : pfxOf p s = true ↔ ∃ t, p ++ t = s := by
  induction p generalizing s with
  | nil => simp [pfxOf]
  | cons a as ih =>
    cases s with
    | nil => simp [pfxOf]
    | cons b bs =>
      simp only [pfxOf, Bool.and_eq_true, decide_eq_true_eq, ih, List.cons_append,
        List.cons.injEq]
      constructor
      · rintro ⟨hab, t, ht⟩
        exact ⟨t, hab, ht⟩
      · rintro ⟨t, hab, ht⟩
        exact ⟨hab, t, ht⟩

theorem pfxOf_trans {a b c : Str} (h1 : pfxOf a b = true) (h2 : pfxOf b c = true) :
    pfxOf a c = true := by
  obtain ⟨t1, ht1⟩ := pfxOf_iff.mp h1
  obtain ⟨t2, ht2⟩ := pfxOf_iff.mp h2
  exact pfxOf_iff.mpr ⟨t1 ++ t2, by rw [← List.append_assoc, ht1, ht2]⟩

theorem colon_append_inj : ∀ (a b x y : Str), ':' ∉ a → ':' ∉ b →
    a ++ ':' :: x = b ++ ':' :: y → a = b := by
  intro a
  induction a with
  | nil =>
    intro b x y _ hb h
    cases b with
    | nil => rfl
    | cons c bs =>
      simp only [List.nil_append, List.cons_append, List.cons.injEq] at h
      exact absurd (h.1 ▸ List.mem_cons_self c bs) hb
  | cons c as ih =>
    intro b x y ha hb h
    cases b with
    | nil =>
      simp only [List.cons_append, List.nil_append, List.cons.injEq] at h
      exact absurd (h.1 ▸ List.mem_cons_self c as) ha
    | cons d bs =>
      simp only [List.cons_append, List.cons.injEq] at h
      have has : ':' ∉ as := fun hm => ha (List.mem_cons_of_mem _ hm)
      have hbs : ':' ∉ bs := fun hm => hb (List.mem_cons_of_mem _ hm)
      rw [h.1, ih bs x y has hbs h.2]

/-! ## Namespace-restriction lemmas -/

theorem restrict_cons (p a : Str) (b : Blob) (rest : RedisState) :
    restrict p ((a, b) :: rest) =
      if pfxOf p a = true then restrict p rest else (a, b) :: restrict p rest := by
  by_cases h : pfxOf p a
  · simp [restrict, List.filter_cons, h]
  · simp [restrict, List.filter_cons, h]

theorem restrict_rdelete (p k : Str) (st : RedisState) (h : pfxOf p k = true) :
    restrict p (rdelete st k) = restrict p st := by
  induction st with
  | nil => rfl
  | cons ab rest ih =>
    obtain ⟨a, b⟩ := ab
    rw [rdelete_cons]
    by_cases hak : a = k
    · rw [if_pos hak, ih, restrict_cons,
        if_pos (show pfxOf p a = true by rw [hak]; exact h)]
    · rw [if_neg hak, restrict_cons, restrict_cons, ih]

theorem restrict_rset (p k : Str) (v : Blob) (st : RedisState) (h : pfxOf p k = true) :
    restrict p (rset st k v) = restrict p st := by
  rw [rset, restrict_cons, if_pos h, restrict_rdelete p k st h]

theorem rget_restrict (p k : Str) (st : RedisState) (h : pfxOf p k = false) :
    rget (restrict p st) k = rget st k := by
  induction st with
  | nil => rfl
  | cons ab rest ih =>
    obtain ⟨a, b⟩ := ab
    rw [restrict_cons, rget_cons]
    by_cases hpa : pfxOf p a = true
    · have hka : ¬ k = a := by
        intro hh
        rw [hh] at h
        rw [h] at hpa
        exact Bool.noConfusion hpa
      rw [if_pos hpa, if_neg hka, ih]
    · rw [if_neg hpa, rget_cons]
      by_cases hka : k = a
      · rw [if_pos hka, if_pos hka]
      · rw [if_neg hka, if_neg hka, ih]

theorem scanKeys_cons (a : Str) (b : Blob) (rest : RedisState) (p : Str) :
    scanKeys ((a, b) :: rest) p =
      if pfxOf p a = true then a :: scanKeys rest p else scanKeys rest p := by
  by_cases h : pfxOf p a
  · simp [scanKeys, List.filter_cons, h]
  · simp [scanKeys, List.filter_cons, h]

theorem scanKeys_restrict (p q : Str) (st : RedisState)
    (hq : ∀ k, pfxOf q k = true → pfxOf p k = false) :
    scanKeys (restrict p st) q = scanKeys st q := by
  induction st with
  | nil => rfl
  | cons ab rest ih =>
    obtain ⟨a, b⟩ := ab
    rw [restrict_cons, scanKeys_cons]
    by_cases hpa : pfxOf p a = true
    · have hqa : ¬ pfxOf q a = true := by
        intro hk
        rw [hq a hk] at hpa
        exact Bool.noConfusion hpa
      rw [if_pos hpa, ih, if_neg hqa]
    · rw [if_neg hpa, scanKeys_cons, ih]

theorem rget_eq_of_restrict_eq {p : Str} {st1 st2 : RedisState}
    (h : restrict p st1 = restrict p st2) {k : Str} (hk : pfxOf p k = false) :
    rget st1 k = rget st2 k := by
  rw [← rget_restrict p k st1 hk, h, rget_restrict p k st2 hk]

theorem scanKeys_eq_of_restrict_eq {p q : Str} {st1 st2 : RedisState}
    (h : restrict p st1 = restrict p st2)
    (hq : ∀ k, pfxOf q k = true → pfxOf p k = false) :
    scanKeys st1 q = scanKeys st2 q := by
  rw [← scanKeys_restrict p q st1 hq, h, scanKeys_restrict p q st2 hq]

theorem keyFor_eq (store : RedisStore) (m u : Str) :
    store.keyFor m u = (store.label ++ chars ":") ++ (m ++ chars ":" ++ u) := by
  simp [RedisStore.keyFor, List.append_assoc]

theorem pfx_label_keyFor (store : RedisStore) (m u : Str) :
    pfxOf (store.label ++ chars ":") (store.keyFor m u) = true := by
  rw [keyFor_eq]
  exact pfxOf_append _ _

theorem keyFor_eq2 (store : RedisStore) (m u : Str) :
    store.keyFor m u = (store.label ++ chars ":" ++ m ++ chars ":") ++ u := by
  simp [RedisStore.keyFor, List.append_assoc]

theorem pfx_scan_keyFor (store : RedisStore) (m u : Str) :
    pfxOf (store.label ++ chars ":" ++ m ++ chars ":") (store.keyFor m u) = true := by
  rw [keyFor_eq2]
  exact pfxOf_append _ _

/-! ## Claim theorems: store basics -/

/-- C1: after RedisStore.add(r), a get with r's type name and r's unique id
succeeds and returns the stored copy with the reading store's back-reference
reattached; in particular its declared identifier and attribute field values
equal those of r (the record round-trips through serialization). -/
theorem add_get_roundtrip (store : RedisStore) (st : RedisState) (r : DSModel) :
    store.get (store.add st r).1 (.str r.modelname) (.str r.get_unique_id)
      = .ok { r with diffsync := store.diffsync }
    ∧ ({ r with diffsync := store.diffsync } : DSModel).idVals = r.idVals
    ∧ ({ r with diffsync := store.diffsync } : DSModel).attrVals = r.attrVals := by
  refine ⟨?_, rfl, rfl⟩
  obtain ⟨mn, iv, av, cm, ci, dsy⟩ := r
  simp [RedisStore.get, RedisStore.resolveUid, RedisStore.add, TypeRef.modelname,
    rget_rset_self, dumps, loads]

/-- C3: add never raises and never checks for an existing entry: even when
the derived key already holds a value, add unconditionally overwrites it with
the pickled detached copy of r (the AlreadyExists conflict check of the
framework contract is commented out in the source, and the embedding of add
is a total function with no error outcome). -/
theorem add_overwrites_existing (store : RedisStore) (st : RedisState) (r : DSModel)
    (old : Blob) (_h : rget st (store.keyFor r.modelname r.get_unique_id) = some old) :
    rget (store.add st r).1 (store.keyFor r.modelname r.get_unique_id)
      = some (dumps { r with diffsync := BackRef.pyFalse }) := by
  simp [RedisStore.add, rget_rset_self]

/-- Witness for C3 at a keyspace already holding a value at modelM's key. -/
theorem add_overwrites_existing_witness :
    rget (storeA.add [(storeA.keyFor (chars "m") (chars "u"), Blob.corrupt 7)] modelM).1
      (storeA.keyFor (chars "m") (chars "u"))
      = some (dumps { modelM with diffsync := BackRef.pyFalse }) :=
  add_overwrites_existing storeA
    [(storeA.keyFor (chars "m") (chars "u"), Blob.corrupt 7)]
    modelM (Blob.corrupt 7) (by decide)

/-- C8: update and add are the same function from (store state, record) to
(store state, result): the source bodies are statement-for-statement
identical. -/
theorem update_extensionally_add (store : RedisStore) (st : RedisState) (r : DSModel) :
    store.update st r = store.add st r := rfl

/-- C10: add and update leave the caller's record unchanged: only the copy
has its diffsync back-reference cleared before serialization (the stored blob
is the detached copy), and the record the caller passed in is returned with
every field, diffsync included, as it was. -/
theorem add_update_preserve_caller_record (store : RedisStore) (st : RedisState)
    (r : DSModel) :
    (store.add st r).2 = r ∧ (store.update st r).2 = r
    ∧ rget (store.add st r).1 (store.keyFor r.modelname r.get_unique_id)
        = some (dumps { r with diffsync := BackRef.pyFalse }) := by
  refine ⟨rfl, rfl, ?_⟩
  simp [RedisStore.add, rget_rset_self]

/-- C5 counterexample: a stored value that exists but cannot be decoded does
not surface as ObjectNotFound; get propagates the deserializer's own
UnpicklingError (only TypeError is caught in the source), so the claim that
every decoding failure is reported as NotFound is false at this input. -/
theorem corrupt_value_unpickling_error :
    storeA.get [(storeA.keyFor (chars "region") (chars "na"), Blob.corrupt 0)]
      (.str (chars "region")) (.str (chars "na")) = .error .unpicklingError
    ∧ (Except.error StoreErr.unpicklingError : Except StoreErr DSModel)
        ≠ .error .objectNotFound :=
  ⟨rfl, fun h => StoreErr.noConfusion (Except.error.inj h)⟩

/-- C5 amended: a key absent when expected is reported as NotFound (the
TypeError the deserializer raises on a missing value is caught), but a stored
value that exists and fails to decode raises the deserializer's
UnpicklingError, which propagates uncaught from get, get_by_uids and get_all
rather than being reported as NotFound. -/
theorem decode_failure_errors (store : RedisStore) (st : RedisState) (m u : Str)
    (t : Nat) :
    (rget st (store.keyFor m u) = none →
      store.get st (.str m) (.str u) = .error .objectNotFound)
    ∧ (rget st (store.keyFor m u) = some (.corrupt t) →
      store.get st (.str m) (.str u) = .error .unpicklingError)
    ∧ (rget st (store.keyFor m u) = some (.corrupt t) →
      store.get_by_uids st [u] (.str m) = .error .unpicklingError)
    ∧ store.get_all [(store.keyFor m u, Blob.corrupt t)] (.str m)
        = .error .unpicklingError := by
  refine ⟨?_, ?_, ?_, ?_⟩
  · intro h
    simp [RedisStore.get, RedisStore.resolveUid, TypeRef.modelname, h, loads]
  · intro h
    simp [RedisStore.get, RedisStore.resolveUid, TypeRef.modelname, h, loads]
  · intro h
    simp [RedisStore.get_by_uids, getByUidsLoop, TypeRef.modelname, h, loads]
  · have hp := pfx_scan_keyFor store m u
    have hscan : scanKeys [(store.keyFor m u, Blob.corrupt t)]
        (store.label ++ chars ":" ++ m ++ chars ":") = [store.keyFor m u] := by
      rw [scanKeys_cons, if_pos hp]
      rfl
    simp only [RedisStore.get_all, TypeRef.modelname]
    rw [hscan]
    simp [getAllLoop, rget_cons, loads]

/-- Witness for C5 (amended): the absent-key and corrupt-value cases of get
at concrete inputs. -/
theorem decode_failure_errors_witness :
    storeA.get [] (.str (chars "region")) (.str (chars "na"))
      = .error .objectNotFound
    ∧ storeA.get [(storeA.keyFor (chars "region") (chars "na"), Blob.corrupt 1)]
        (.str (chars "region")) (.str (chars "na")) = .error .unpicklingError :=
  ⟨(decode_failure_errors storeA [] (chars "region") (chars "na") 1).1 rfl,
   (decode_failure_errors storeA
      [(storeA.keyFor (chars "region") (chars "na"), Blob.corrupt 1)]
      (chars "region") (chars "na") 1).2.1 rfl⟩

/-- C6 counterexample: a bare string that happens to name an attribute of the
store instance (here the method name "count") together with a mapping
identifier does not raise ValueError: hasattr succeeds, getattr returns the
truthy bound method, and calling create_unique_id on it raises
AttributeError instead. -/
theorem method_name_mapping_attr_error :
    storeA.get [] (.str (chars "count")) (.mapping [(chars "slug", chars "na")])
      = .error .attributeError
    ∧ (Except.error StoreErr.attributeError : Except StoreErr DSModel)
        ≠ .error .valueError :=
  ⟨rfl, fun h => StoreErr.noConfusion (Except.error.inj h)⟩

/-- C6 amended: when obj is a bare string that does not name an attribute of
the store instance (every actual model type name in this repository:
hasattr(self, obj) is false) and the identifier is a mapping, get raises
ValueError; a string naming a non-class store attribute fails differently
(see the counterexample). -/
theorem bare_string_mapping_value_error (store : RedisStore) (st : RedisState)
    (s : Str) (idm : List (Str × Str)) (h : store.pyAttr s = none) :
    store.get st (.str s) (.mapping idm) = .error .valueError := by
  simp [RedisStore.get, RedisStore.resolveUid, RedisStore.objClass, h]

/-- Witness for C6 (amended) at the model name "region". -/
theorem bare_string_mapping_value_error_witness :
    storeA.get [] (.str (chars "region")) (.mapping [(chars "slug", chars "na")])
      = .error .valueError :=
  bare_string_mapping_value_error storeA [] (chars "region")
    [(chars "slug", chars "na")] rfl

/-! ## Claim theorems: Nautobot adapter -/

/-- C2 counterexample: a 304 Not Modified response (non-2xx, but outside the
4xx/5xx classes raise_for_status raises for) to the PATCH of a site update is
not treated as a failure: no error propagates and the base update delegation
IS reached, so the local record graph changes. -/
theorem site_update_304_reaches_base :
    graphOf (siteUpdate ad304 site0 sAttrsSlug)
      = some [.site { site0 with slug := chars "new" }]
    ∧ [NbRec.site { site0 with slug := chars "new" }] ≠ ad304.graph := by
  refine ⟨rfl, ?_⟩
  intro h
  simp [ad304, site0] at h
  exact absurd h (by decide)

/-- C2 amended: a 4xx or 5xx response (the statuses raise_for_status raises
for) to the remote POST of a region create or the remote PATCH of a site
update propagates as an HTTPError and the base create/update delegation is
never reached; since the operations return errors without producing a new
adapter, the local record graph is the caller's unchanged one.  (Statuses
outside 4xx/5xx, including non-2xx ones such as 304, do not raise; see the
counterexample.) -/
theorem create_update_fail_on_4xx5xx
    (ad : NbAdapter) (ids : RegionIds) (attrs : RegionCreateAttrs)
    (d : List (Str × JVal)) (self : SiteRec) (sa : SiteUpdateAttrs)
    (hd : buildRegionCreateData ad ids attrs = .ok d)
    (h1 : 400 ≤ ad.http ⟨.post, chars "/api/dcim/regions/", d⟩)
    (h2 : ad.http ⟨.post, chars "/api/dcim/regions/", d⟩ < 600)
    (h3 : 400 ≤ ad.http ⟨.patch, sitePath (pkStr self.pk), buildSitePatchBody sa⟩)
    (h4 : ad.http ⟨.patch, sitePath (pkStr self.pk), buildSitePatchBody sa⟩ < 600) :
    regionCreate ad ids attrs
      = .error (.httpError (ad.http ⟨.post, chars "/api/dcim/regions/", d⟩))
    ∧ siteUpdate ad self sa
      = .error (.httpError
          (ad.http ⟨.patch, sitePath (pkStr self.pk), buildSitePatchBody sa⟩)) := by
  constructor
  · simp [regionCreate, hd, nbPost, h1, h2]
  · simp [siteUpdate, nbPatch, h3, h4]

/-- Witness for C2 (amended) against a remote answering 500. -/
theorem create_update_fail_on_4xx5xx_witness :
    regionCreate adFail rIds0 rAttrs0 = .error (.httpError 500)
    ∧ siteUpdate adFail site0 sAttrsSlug = .error (.httpError 500) :=
  create_update_fail_on_4xx5xx adFail rIds0 rAttrs0
    [(chars "name", JVal.jstr (chars "r1")), (chars "slug", JVal.jstr (chars "r1"))]
    site0 sAttrsSlug rfl (by decide) (by decide) (by decide) (by decide)

/-- C9: a Region update whose change set holds only slug sends a patch body
containing solely the slug entry (absent attributes contribute nothing), and
whenever the change set contains a cleared (falsy) parent_name the body
carries an explicit null parent rather than omitting it. -/
theorem region_update_patch_body (ad : NbAdapter) :
    (∀ v, buildRegionPatchBody ad
        { slug := some v, description := none, parent_name := none }
        = .ok [(chars "slug", JVal.jstr v)])
    ∧ (∀ (a : RegionUpdateAttrs) (pv : Option Str), a.parent_name = some pv →
        optStrTruthy pv = false →
        ∃ d2, buildRegionPatchBody ad a = .ok d2
          ∧ (chars "parent", JVal.jnull) ∈ d2) := by
  constructor
  · intro v
    rfl
  · intro a pv hp ht
    obtain ⟨s, dsc, pn⟩ := a
    simp only at hp
    subst hp
    simp only [buildRegionPatchBody, ht, Bool.false_eq_true, if_false]
    exact ⟨_, rfl, by simp⟩

/-- Witness for C9: the slug-only body and a cleared parent at concrete
inputs. -/
theorem region_update_patch_body_witness :
    buildRegionPatchBody adFail
      { slug := some (chars "x"), description := none, parent_name := none }
      = .ok [(chars "slug", JVal.jstr (chars "x"))]
    ∧ ∃ d2, buildRegionPatchBody adFail
        { slug := none, description := none, parent_name := some none }
        = .ok d2 ∧ (chars "parent", JVal.jnull) ∈ d2 :=
  ⟨(region_update_patch_body adFail).1 (chars "x"),
   (region_update_patch_body adFail).2
     { slug := none, description := none, parent_name := some none } none rfl rfl⟩

/-! ## Recursive remove: unfolding equations and invariants -/

theorem remove_zero (store : RedisStore) (st : RedisState) (obj : DSModel)
    (rc : Bool) : store.remove 0 st obj rc = (st, some .outOfFuel) := rfl

theorem remove_succ (store : RedisStore) (fuel : Nat) (st : RedisState)
    (obj : DSModel) (rc : Bool) :
    store.remove (fuel + 1) st obj rc =
      if rexists st (store.keyFor obj.modelname obj.get_unique_id) = false
      then (st, some .objectNotFound)
      else if rc = true
        then removeLoop store (fun s c => store.remove fuel s c true)
          (rdelete st (store.keyFor obj.modelname obj.get_unique_id)) obj.childPairs
        else (rdelete st (store.keyFor obj.modelname obj.get_unique_id), none) := rfl

theorem removeLoop_restrict (store : RedisStore) (p : Str)
    (f : RedisState → DSModel → RedisState × Option StoreErr)
    (hf : ∀ s c, restrict p ((f s c).1) = restrict p s) :
    ∀ (pairs : List (Str × Str)) (st : RedisState),
      restrict p ((removeLoop store f st pairs).1) = restrict p st := by
  intro pairs
  induction pairs with
  | nil => intro st; rfl
  | cons pr rest ih =>
    intro st
    obtain ⟨ct, cid⟩ := pr
    cases hget : store.get st (.str ct) (.str cid) with
    | error e =>
      cases e <;> simp [removeLoop, hget, ih]
    | ok child =>
      cases hfc : f st child with
      | mk st2 e2 =>
        have h2 : restrict p st2 = restrict p st := by
          have hh := hf st child
          rw [hfc] at hh
          exact hh
        cases e2 with
        | none => simp [removeLoop, hget, hfc, ih, h2]
        | some e => cases e <;> simp [removeLoop, hget, hfc, ih, h2]

theorem remove_restrict (store : RedisStore) (p : Str)
    (hp : ∀ m u, pfxOf p (store.keyFor m u) = true) :
    ∀ (fuel : Nat) (st : RedisState) (obj : DSModel) (rc : Bool),
      restrict p ((store.remove fuel st obj rc).1) = restrict p st := by
  intro fuel
  induction fuel with
  | zero => intro st obj rc; rfl
  | succ n ih =>
    intro st obj rc
    rw [remove_succ]
    by_cases hex : rexists st (store.keyFor obj.modelname obj.get_unique_id) = false
    · rw [if_pos hex]
    · rw [if_neg hex]
      have hdel : restrict p
          (rdelete st (store.keyFor obj.modelname obj.get_unique_id))
          = restrict p st := restrict_rdelete p _ st (hp _ _)
      cases rc with
      | false =>
        rw [if_neg Bool.false_ne_true]
        exact hdel
      | true =>
        rw [if_pos rfl,
          removeLoop_restrict store p _ (fun s c => ih s c true), hdel]

theorem removeLoop_sub (store : RedisStore)
    (f : RedisState → DSModel → RedisState × Option StoreErr)
    (hsub : ∀ s c kv, kv ∈ (f s c).1 → kv ∈ s) :
    ∀ (pairs : List (Str × Str)) (st : RedisState) (kv : Str × Blob),
      kv ∈ (removeLoop store f st pairs).1 → kv ∈ st := by
  intro pairs
  induction pairs with
  | nil => intro st kv h; exact h
  | cons pr rest ih =>
    intro st kv h
    obtain ⟨ct, cid⟩ := pr
    cases hget : store.get st (.str ct) (.str cid) with
    | error e =>
      cases e <;> rw [removeLoop, hget] at h
      case objectNotFound => exact ih st kv h
      all_goals exact h
    | ok child =>
      cases hfc : f st child with
      | mk st2 e2 =>
        have h2 : ∀ kv2, kv2 ∈ st2 → kv2 ∈ st := by
          intro kv2 hkv2
          exact hsub st child kv2 (by rw [hfc]; exact hkv2)
        simp only [removeLoop, hget, hfc] at h
        cases e2 with
        | none => exact h2 kv (ih st2 kv h)
        | some e =>
          cases e
          case objectNotFound => exact h2 kv (ih st2 kv h)
          all_goals exact h2 kv h

theorem remove_sub (store : RedisStore) :
    ∀ (fuel : Nat) (st : RedisState) (obj : DSModel) (rc : Bool) (kv : Str × Blob),
      kv ∈ (store.remove fuel st obj rc).1 → kv ∈ st := by
  intro fuel
  induction fuel with
  | zero => intro st obj rc kv h; exact h
  | succ n ih =>
    intro st obj rc kv h
    rw [remove_succ] at h
    by_cases hex : rexists st (store.keyFor obj.modelname obj.get_unique_id) = false
    · rw [if_pos hex] at h
      exact h
    · rw [if_neg hex] at h
      cases rc with
      | false =>
        rw [if_neg Bool.false_ne_true] at h
        exact (mem_rdelete.mp h).1
      | true =>
        rw [if_pos rfl] at h
        exact (mem_rdelete.mp
          (removeLoop_sub store _ (fun s c => ih s c true) obj.childPairs _ kv h)).1

theorem removeLoop_len (store : RedisStore)
    (f : RedisState → DSModel → RedisState × Option StoreErr)
    (hlen : ∀ s c, ((f s c).1).length ≤ s.length) :
    ∀ (pairs : List (Str × Str)) (st : RedisState),
      ((removeLoop store f st pairs).1).length ≤ st.length := by
  intro pairs
  induction pairs with
  | nil => intro st; exact Nat.le_refl _
  | cons pr rest ih =>
    intro st
    obtain ⟨ct, cid⟩ := pr
    cases hget : store.get st (.str ct) (.str cid) with
    | error e =>
      cases e <;> rw [removeLoop, hget]
      case objectNotFound => exact ih st
    | ok child =>
      cases hfc : f st child with
      | mk st2 e2 =>
        have h2 : st2.length ≤ st.length := by
          have hh := hlen st child
          rw [hfc] at hh
          exact hh
        simp only [removeLoop, hget, hfc]
        cases e2 with
        | none => exact Nat.le_trans (ih st2) h2
        | some e =>
          cases e
          case objectNotFound => exact Nat.le_trans (ih st2) h2
          all_goals exact h2

theorem remove_len (store : RedisStore) :
    ∀ (fuel : Nat) (st : RedisState) (obj : DSModel) (rc : Bool),
      ((store.remove fuel st obj rc).1).length ≤ st.length := by
  intro fuel
  induction fuel with
  | zero => intro st obj rc; exact Nat.le_refl _
  | succ n ih =>
    intro st obj rc
    rw [remove_succ]
    by_cases hex : rexists st (store.keyFor obj.modelname obj.get_unique_id) = false
    · rw [if_pos hex]
    · rw [if_neg hex]
      cases rc with
      | false =>
        rw [if_neg Bool.false_ne_true]
        exact rdelete_length_le st _
      | true =>
        rw [if_pos rfl]
        exact Nat.le_trans
          (removeLoop_len store _ (fun s c => ih s c true) obj.childPairs _)
          (rdelete_length_le st _)

theorem cleanB_of_sub {st1 st2 : RedisState}
    (hsub : ∀ kv, kv ∈ st1 → kv ∈ st2) (h : cleanB st2 = true) :
    cleanB st1 = true := by
  rw [cleanB, List.all_eq_true] at h ⊢
  exact fun kv hm => h kv (hsub kv hm)

theorem get_str_str_cases (store : RedisStore) (st : RedisState) (a b : Str)
    (hc : cleanB st = true) :
    store.get st (.str a) (.str b) = .error .objectNotFound
    ∨ ∃ mm, store.get st (.str a) (.str b) = .ok mm := by
  cases hr : rget st (store.keyFor a b) with
  | none =>
    left
    simp [RedisStore.get, RedisStore.resolveUid, TypeRef.modelname, hr, loads]
  | some blob =>
    cases blob with
    | pickled mm =>
      right
      exact ⟨{ mm with diffsync := store.diffsync }, by
        simp [RedisStore.get, RedisStore.resolveUid, TypeRef.modelname, hr, loads]⟩
    | corrupt t =>
      exfalso
      have hmem := rget_mem hr
      rw [cleanB, List.all_eq_true] at hc
      have := hc _ hmem
      simp at this

theorem get_str_str_ok_mem (store : RedisStore) (st : RedisState) (a b : Str)
    (child : DSModel) (hget : store.get st (.str a) (.str b) = .ok child) :
    ∃ mm, rget st (store.keyFor a b) = some (Blob.pickled mm) := by
  cases hr : rget st (store.keyFor a b) with
  | none =>
    simp [RedisStore.get, RedisStore.resolveUid, TypeRef.modelname, hr, loads] at hget
  | some blob =>
    cases blob with
    | pickled mm => exact ⟨mm, rfl⟩
    | corrupt t =>
      simp [RedisStore.get, RedisStore.resolveUid, TypeRef.modelname, hr, loads] at hget

theorem removeLoop_success (store : RedisStore) (m : Nat)
    (f : RedisState → DSModel → RedisState × Option StoreErr)
    (hlen : ∀ s c, ((f s c).1).length ≤ s.length)
    (hsub : ∀ s c kv, kv ∈ (f s c).1 → kv ∈ s)
    (hf : ∀ s c, cleanB s = true → 0 < s.length → s.length ≤ m →
      (f s c).2 = none ∨ f s c = (s, some .objectNotFound)) :
    ∀ (pairs : List (Str × Str)) (st : RedisState),
      cleanB st = true → st.length ≤ m →
      (removeLoop store f st pairs).2 = none := by
  intro pairs
  induction pairs with
  | nil => intro st _ _; rfl
  | cons pr rest ih =>
    intro st hc hm
    obtain ⟨ct, cid⟩ := pr
    rcases get_str_str_cases store st ct cid hc with hget | ⟨child, hget⟩
    · simp [removeLoop, hget, ih st hc hm]
    · obtain ⟨mm, hr⟩ := get_str_str_ok_mem store st ct cid child hget
      have hpos : 0 < st.length :=
        List.length_pos.mpr (List.ne_nil_of_mem (rget_mem hr))
      rcases hf st child hc hpos hm with h2 | h2
      · cases hfc : f st child with
        | mk st2 e2 =>
          rw [hfc] at h2
          simp only at h2
          subst h2
          have hc2 : cleanB st2 = true :=
            cleanB_of_sub (fun kv hkv => hsub st child kv (by rw [hfc]; exact hkv)) hc
          have hm2 : st2.length ≤ m := by
            have hh := hlen st child
            rw [hfc] at hh
            exact Nat.le_trans hh hm
          simp [removeLoop, hget, hfc, ih st2 hc2 hm2]
      · simp [removeLoop, hget, h2, ih st hc hm]

theorem remove_success (store : RedisStore) :
    ∀ (fuel : Nat) (st : RedisState) (obj : DSModel) (rc : Bool),
      cleanB st = true →
      rget st (store.keyFor obj.modelname obj.get_unique_id) ≠ none →
      st.length ≤ fuel →
      (store.remove fuel st obj rc).2 = none := by
  intro fuel
  induction fuel with
  | zero =>
    intro st obj rc _ hne hlen
    have hnil : st = [] := List.length_eq_zero.mp (Nat.le_zero.mp hlen)
    subst hnil
    exact absurd rfl hne
  | succ n ih =>
    intro st obj rc hc hne hlen
    rw [remove_succ]
    have hex : ¬ rexists st (store.keyFor obj.modelname obj.get_unique_id) = false := by
      intro hfalse
      rw [rexists] at hfalse
      cases hr : rget st (store.keyFor obj.modelname obj.get_unique_id) with
      | none => exact hne hr
      | some bb =>
        rw [hr] at hfalse
        exact Bool.noConfusion hfalse
    rw [if_neg hex]
    have hlt := rdelete_length_lt st (store.keyFor obj.modelname obj.get_unique_id) hne
    have hlen1 : (rdelete st (store.keyFor obj.modelname obj.get_unique_id)).length ≤ n := by
      omega
    have hc1 : cleanB (rdelete st (store.keyFor obj.modelname obj.get_unique_id)) = true :=
      cleanB_of_sub (fun kv hkv => (mem_rdelete.mp hkv).1) hc
    cases rc with
    | false =>
      rw [if_neg Bool.false_ne_true]
    | true =>
      rw [if_pos rfl]
      apply removeLoop_success store n _
        (fun s c => remove_len store n s c true)
        (fun s c => remove_sub store n s c true)
        ?_ obj.childPairs _ hc1 hlen1
      intro s c hcs hpos hms
      cases hr : rget s (store.keyFor c.modelname c.get_unique_id) with
      | some bb =>
        exact Or.inl (ih s c true hcs (by rw [hr]; exact fun hh => Option.noConfusion hh) hms)
      | none =>
        right
        obtain ⟨n2, rfl⟩ : ∃ n2, n = n2 + 1 := ⟨n - 1, by omega⟩
        rw [remove_succ, if_pos (by rw [rexists, hr]; rfl)]

/-- C7: recursive remove on a stored record deletes the record's own entry
first and then walks every declared (child type, child id) pair; a child id
with no stored entry is silently skipped, so with any clean keyspace (no
undecodable values) and enough fuel the call raises nothing, the parent's key
is gone from the result, and no new entries appear.  The children arbitrary
in obj cover both present and missing child ids. -/
theorem remove_recursive_best_effort (store : RedisStore) (fuel : Nat)
    (st : RedisState) (obj : DSModel)
    (hc : cleanB st = true)
    (hex : rexists st (store.keyFor obj.modelname obj.get_unique_id) = true)
    (hfuel : st.length ≤ fuel) :
    (store.remove fuel st obj true).2 = none
    ∧ rget (store.remove fuel st obj true).1
        (store.keyFor obj.modelname obj.get_unique_id) = none
    ∧ ∀ kv, kv ∈ (store.remove fuel st obj true).1 → kv ∈ st := by
  have hne : rget st (store.keyFor obj.modelname obj.get_unique_id) ≠ none := by
    intro hnone
    rw [rexists, hnone] at hex
    exact Bool.noConfusion hex
  refine ⟨remove_success store fuel st obj true hc hne hfuel, ?_,
    fun kv => remove_sub store fuel st obj true kv⟩
  cases fuel with
  | zero =>
    have hnil : st = [] := List.length_eq_zero.mp (Nat.le_zero.mp hfuel)
    subst hnil
    exact absurd rfl hne
  | succ n =>
    rw [remove_succ,
      if_neg (fun hf => Bool.noConfusion (hex.symm.trans hf)), if_pos rfl]
    cases hres : rget (removeLoop store (fun s c => store.remove n s c true)
        (rdelete st (store.keyFor obj.modelname obj.get_unique_id))
        obj.childPairs).1 (store.keyFor obj.modelname obj.get_unique_id) with
    | none => rfl
    | some bb =>
      exfalso
      have hmem := removeLoop_sub store _
        (fun s c => remove_sub store n s c true) obj.childPairs _ _ (rget_mem hres)
      exact (mem_rdelete.mp hmem).2 rfl

/-- Witness for C7: a parent with a stored child "ca" and a missing child
"us"; the recursive remove raises nothing and deletes the parent entry. -/
theorem remove_recursive_best_effort_witness :
    (storeA.remove 2 stParent parentR true).2 = none
    ∧ rget (storeA.remove 2 stParent parentR true).1
        (storeA.keyFor parentR.modelname parentR.get_unique_id) = none
    ∧ ∀ kv, kv ∈ (storeA.remove 2 stParent parentR true).1 → kv ∈ stParent :=
  remove_recursive_best_effort storeA 2 stParent parentR (by decide) (by decide)
    (by decide)

/-! ## Namespace isolation between stores -/

theorem label_colon_eq (store : RedisStore) :
    store.label ++ chars ":" = chars "diffsync:" ++ store.store_id ++ chars ":" := by
  simp [RedisStore.label, List.append_assoc]

theorem label_pfx_disjoint (s1 s2 : Str) (h1 : ':' ∉ s1) (h2 : ':' ∉ s2)
    (hne : s1 ≠ s2) (k : Str)
    (hk : pfxOf (chars "diffsync:" ++ s1 ++ chars ":") k = true) :
    pfxOf (chars "diffsync:" ++ s2 ++ chars ":") k = false := by
  cases hq : pfxOf (chars "diffsync:" ++ s2 ++ chars ":") k with
  | false => rfl
  | true =>
    exfalso
    obtain ⟨t1, ht1⟩ := pfxOf_iff.mp hk
    obtain ⟨t2, ht2⟩ := pfxOf_iff.mp hq
    rw [← ht1] at ht2
    apply hne
    have hcan : s1 ++ ':' :: t1 = s2 ++ ':' :: t2 := by
      have hh := ht2
      simp only [chars_colon, List.append_assoc, List.singleton_append] at hh
      exact (List.append_cancel_left hh).symm
    exact colon_append_inj s1 s2 t1 t2 h1 h2 hcan

theorem applyOp_restrict (store : RedisStore) (st : RedisState) (op : RedisOp) :
    restrict (store.label ++ chars ":") (applyOp store st op)
      = restrict (store.label ++ chars ":") st := by
  cases op with
  | addOp r =>
    simp only [applyOp, RedisStore.add]
    exact restrict_rset _ _ _ _ (pfx_label_keyFor store _ _)
  | updateOp r =>
    simp only [applyOp, RedisStore.update]
    exact restrict_rset _ _ _ _ (pfx_label_keyFor store _ _)
  | removeOp r rc fuel =>
    exact remove_restrict store _ (fun m u => pfx_label_keyFor store m u) fuel st r rc

theorem applyOps_restrict (store : RedisStore) (ops : List RedisOp) :
    ∀ st : RedisState,
      restrict (store.label ++ chars ":") (applyOps store st ops)
        = restrict (store.label ++ chars ":") st := by
  induction ops with
  | nil => intro st; rfl
  | cons op rest ih =>
    intro st
    rw [applyOps, List.foldl_cons]
    have hh := ih (applyOp store st op)
    rw [applyOps] at hh
    rw [hh, applyOp_restrict]

theorem get_state_congr (store : RedisStore) {st1 st2 : RedisState}
    (h : ∀ m u, rget st1 (store.keyFor m u) = rget st2 (store.keyFor m u))
    (tref : TypeRef) (idarg : IdArg) :
    store.get st1 tref idarg = store.get st2 tref idarg := by
  cases hu : store.resolveUid tref idarg with
  | error e => simp [RedisStore.get, hu]
  | ok uid => simp [RedisStore.get, hu, h tref.modelname uid]

theorem getAllLoop_congr (store : RedisStore) {st1 st2 : RedisState} :
    ∀ keys : List Str, (∀ k ∈ keys, rget st1 k = rget st2 k) →
      getAllLoop store st1 keys = getAllLoop store st2 keys := by
  intro keys
  induction keys with
  | nil => intro _; rfl
  | cons k rest ih =>
    intro h
    have hk := h k (List.mem_cons_self _ _)
    have hrest := ih (fun k2 hk2 => h k2 (List.mem_cons_of_mem _ hk2))
    simp [getAllLoop, hk, hrest]

theorem scanKeys_mem {st : RedisState} {p k : Str} (h : k ∈ scanKeys st p) :
    pfxOf p k = true :=
  List.of_mem_filter h

/-- C4 counterexample: store_id values may contain colons, and then two
stores with distinct store_id values do observe each other's entries.  With
store_id "a" and store_id "a:b", an add performed by the second store is
counted by the first store's count (1 instead of 0) and is readable through
the first store's get under type name "b:m". -/
theorem store_isolation_cross_read :
    RedisStore.count storeA (applyOps storeB [] [RedisOp.addOp modelM]) none = 1
    ∧ RedisStore.count storeA [] none = 0
    ∧ storeA.get (applyOps storeB [] [RedisOp.addOp modelM])
        (.str (chars "b:m")) (.str (chars "u")) = .ok modelM := by
  refine ⟨by decide, by decide, ?_⟩
  rfl

/-- C4 amended: two stores whose store_id values are distinct and colon-free
are fully isolated: after any sequence of add/update/remove operations by one
store, the other store's get (for every type reference and identifier),
get_all (for every type reference) and count (with and without type filter)
return exactly what they returned before.  Without the colon-freedom
hypothesis the claim is false (see the counterexample). -/
theorem store_isolation_colon_free (store1 store2 : RedisStore)
    (h1 : ':' ∉ store1.store_id) (h2 : ':' ∉ store2.store_id)
    (hne : store1.store_id ≠ store2.store_id)
    (ops : List RedisOp) (st : RedisState) :
    (∀ (tref : TypeRef) (idarg : IdArg),
      store1.get (applyOps store2 st ops) tref idarg = store1.get st tref idarg)
    ∧ (∀ tref : TypeRef,
      store1.get_all (applyOps store2 st ops) tref = store1.get_all st tref)
    ∧ (∀ mf : Option Str,
      store1.count (applyOps store2 st ops) mf = store1.count st mf) := by
  have hres := applyOps_restrict store2 ops st
  have hdisj : ∀ k, pfxOf (store1.label ++ chars ":") k = true →
      pfxOf (store2.label ++ chars ":") k = false := by
    intro k hk
    rw [label_colon_eq] at hk ⊢
    exact label_pfx_disjoint store1.store_id store2.store_id h1 h2 hne k hk
  refine ⟨?_, ?_, ?_⟩
  · intro tref idarg
    apply get_state_congr store1
    intro m u
    exact rget_eq_of_restrict_eq hres (hdisj _ (pfx_label_keyFor store1 m u))
  · intro tref
    have hq1 : pfxOf (store1.label ++ chars ":")
        (store1.label ++ chars ":" ++ tref.modelname ++ chars ":") = true := by
      rw [show store1.label ++ chars ":" ++ tref.modelname ++ chars ":"
          = (store1.label ++ chars ":") ++ (tref.modelname ++ chars ":") by
        simp [List.append_assoc]]
      exact pfxOf_append _ _
    have hscan := scanKeys_eq_of_restrict_eq hres
      (fun k hk => hdisj k (pfxOf_trans hq1 hk))
    rw [RedisStore.get_all, RedisStore.get_all, hscan]
    apply getAllLoop_congr
    intro k hk
    exact rget_eq_of_restrict_eq hres
      (hdisj k (pfxOf_trans hq1 (scanKeys_mem hk)))
  · intro mf
    cases mf with
    | none =>
      have hscan := scanKeys_eq_of_restrict_eq hres (fun k hk => hdisj k hk)
      rw [RedisStore.count, RedisStore.count, hscan]
    | some m =>
      have hq1 : pfxOf (store1.label ++ chars ":")
          (store1.label ++ chars ":" ++ m ++ chars ":") = true := by
        rw [show store1.label ++ chars ":" ++ m ++ chars ":"
            = (store1.label ++ chars ":") ++ (m ++ chars ":") by
          simp [List.append_assoc]]
        exact pfxOf_append _ _
      have hscan := scanKeys_eq_of_restrict_eq hres
        (fun k hk => hdisj k (pfxOf_trans hq1 hk))
      rw [RedisStore.count, RedisStore.count, hscan]

/-- Witness for C4 (amended) with the colon-free stores "a" and "b" and one
add by the second store. -/
theorem store_isolation_colon_free_witness :
    storeA.get (applyOps storeC [] [RedisOp.addOp modelM])
      (.str (chars "m")) (.str (chars "u"))
      = storeA.get [] (.str (chars "m")) (.str (chars "u"))
    ∧ storeA.count (applyOps storeC [] [RedisOp.addOp modelM]) none
      = storeA.count [] none :=
  ⟨(store_isolation_colon_free storeA storeC (by decide) (by decide) (by decide)
      [RedisOp.addOp modelM] []).1 (.str (chars "m")) (.str (chars "u")),
   (store_isolation_colon_free storeA storeC (by decide) (by decide) (by decide)
      [RedisOp.addOp modelM] []).2.2 none⟩
